import Mathlib

/-!
Verification of the `gedcom_processor` family-snapshot pipeline.

The Python sources under `src/` are shallowly embedded below:

* Python `dict[str, V]` values (the individual and family maps, JSON
  objects) are modelled as insertion-ordered association lists
  `List (String × V)`; `dict.get` is `dictGet`, which returns the first
  binding of a key.  Python guarantees key uniqueness; theorems that need
  it take a `Nodup` hypothesis on the keys.
* Python `None` is `Option.none`.  GEDCOM cross-reference identifiers are
  nonempty strings, so Python truthiness tests on them (`if spouse_id`,
  `if not person["famc"]`) coincide with `Option.isSome` of the model.
* Functions that can raise are embedded in `Except`; the exception class
  raised by the Python code is recorded in the error type.
* `random.choice(candidates)` is modelled by an extra parameter `r : Nat`
  selecting the element of index `r % candidates.length`; quantifying over
  `r` quantifies over every possible outcome of the randomness source.
-/

/-- First binding of key `k` in an association list: Python `dict.get`. -/
def dictGet {α : Type} (k : String) : List (String × α) → Option α
  | [] => none
  | kv :: rest => if kv.1 = k then some kv.2 else dictGet k rest

/-- One person record, as extracted by `GedcomSource._extract_individual`:
name parts, optional sex, optional birth/death year strings, the ordered
list of spousal-family references (`FAMS`) and the optional parental-family
reference (`FAMC`). -/
structure Individual where
  first_name : String
  last_name : String
  sex : Option String
  birth : Option String
  death : Option String
  fams : List String
  famc : Option String
deriving DecidableEq, Repr

/-- One family record, as extracted by `GedcomSource._extract_family`:
optional husband/wife references and the source-ordered child references. -/
structure FamilyRec where
  husb : Option String
  wife : Option String
  children : List String
deriving DecidableEq, Repr

/-- The in-memory graph built by `GedcomSource.__init__`: the individual
map `self._individuals` and the family map `self._families`. -/
structure Graph where
  individuals : List (String × Individual)
  families : List (String × FamilyRec)
deriving DecidableEq, Repr

/-- Embeds `GedcomSource._get_spouse_id`: the other husband/wife reference of a
family.  Python compares `person_id == family["husb"]` where the field may
be `None`; a string never equals `None`, hence the `some` comparisons. -/
def get_spouse_id (person_id : String) (family : FamilyRec) : Option String :=
  if family.husb = some person_id then family.wife
  else if family.wife = some person_id then family.husb
  else none

/-- Embeds `GedcomSource._get_parents`: `(father_id, mother_id)` of a person via
its parental-family reference; `(None, None)` when the person is absent,
has no `FAMC`, or the referenced family is unknown. -/
def get_parents (g : Graph) : Option Individual → Option String × Option String
  | none => (none, none)
  | some person =>
    match person.famc with
    | none => (none, none)
    | some famc_id =>
      match dictGet famc_id g.families with
      | none => (none, none)
      | some family => (family.husb, family.wife)

/-- Embeds `GedcomSource._is_eligible`: spousal family present, its first family
known with at least one child, spouse resolvable, and at least one parent
reference present on either side. -/
def is_eligible (g : Graph) (person_id : String) (person : Individual) : Bool :=
  match person.fams with
  | [] => false
  | family_id :: _ =>
    match dictGet family_id g.families with
    | none => false
    | some family =>
      if family.children = [] then false
      else
        match get_spouse_id person_id family with
        | none => false
        | some spouse_id =>
          match dictGet spouse_id g.individuals with
          | none => false
          | some spouse =>
            let person_parents := get_parents g (some person)
            let spouse_parents := get_parents g (some spouse)
            person_parents.1.isSome || person_parents.2.isSome ||
              spouse_parents.1.isSome || spouse_parents.2.isSome

/-- Embeds `GedcomSource.get_eligible_ids`: the identifiers of all eligible
individuals, in insertion (source) order of the individual map. -/
def get_eligible_ids (g : Graph) : List String :=
  (g.individuals.filter (fun kv => is_eligible g kv.1 kv.2)).map (fun kv => kv.1)

/-- Error raised by `selector.select_family_id` (Python `ValueError`,
named `EmptySetError` in the specification). -/
inductive SelectorError where
  | emptySet
deriving DecidableEq, Repr

/-- Embeds `selector.select_family_id`: raise on an empty list, return the sole
element of a singleton, otherwise drop the previous identifier from the
candidates (falling back to the full list if that empties them) and pick
the candidate of index `r % length` — the outcome of `random.choice`
under randomness outcome `r`. -/
def select_family_id (eligible_ids : List String) (last_id : Option String)
    (r : Nat) : Except SelectorError String :=
  match eligible_ids with
  | [] => .error .emptySet
  | [x] => .ok x
  | _ =>
    let candidates := eligible_ids.filter (fun i => decide (some i ≠ last_id))
    let pool := if candidates.isEmpty then eligible_ids else candidates
    match pool[r % pool.length]? with
    | some x => .ok x
    | none => .error .emptySet

/-- Output of `schema.make_person`: the person dictionary of the output
schema.  The `child` key is added only when the argument is not `None`;
`child = none` models the key being absent from the dictionary. -/
structure Person where
  first_name : String
  last_name : String
  birth : Option String
  death : Option String
  child : Option Bool
deriving DecidableEq, Repr

/-- Embeds `schema.make_person`. -/
def make_person (first_name last_name : String) (birth death : Option String)
    (child : Option Bool) : Person :=
  ⟨first_name, last_name, birth, death, child⟩

/-- One entry of the `children` sequence, as produced by
`GedcomSource._make_child_entry`: either `{"first": ...}` (no `"second"`
key at all) or `{"first": ..., "second": ...}`. -/
inductive ChildEntry where
  | only (first : Person)
  | withSpouse (first : Person) (second : Person)
deriving DecidableEq, Repr

/-- A `{"father": ..., "mother": ...}` dictionary; each value may be the
explicit JSON `null` (modelled by `none`), but both keys are present. -/
structure ParentPair where
  father : Option Person
  mother : Option Person
deriving DecidableEq, Repr

/-- Output of `schema.make_family_entry`: the cached family dictionary.  All
six keys are always present; `spouse = none` models the key mapping to an
explicit `null`. -/
structure FamilyEntry where
  id : String
  subject : Person
  spouse : Option Person
  subject_parents : ParentPair
  spouse_parents : ParentPair
  children : List ChildEntry
deriving DecidableEq, Repr

/-- Embeds `schema.make_family_entry`. -/
def make_family_entry (family_id : String) (subject : Person)
    (spouse : Option Person) (subject_parents spouse_parents : ParentPair)
    (children : List ChildEntry) : FamilyEntry :=
  ⟨family_id, subject, spouse, subject_parents, spouse_parents, children⟩

/-- Embeds `GedcomSource._person_to_dict`: `None` stays `None`, otherwise a
person snapshot without the `child` marker. -/
def person_to_dict : Option Individual → Option Person
  | none => none
  | some person =>
    some (make_person person.first_name person.last_name person.birth
      person.death none)

/-- Embeds `GedcomSource._make_child_entry`: the child snapshot with the `child`
marker set, paired with the snapshot of the child's own first-family
spouse when every link of that chain resolves, and alone otherwise. -/
def make_child_entry (g : Graph) (child_id : String) (child : Individual) :
    ChildEntry :=
  let child_dict := make_person child.first_name child.last_name child.birth
    child.death (some true)
  match child.fams with
  | [] => .only child_dict
  | child_family_id :: _ =>
    match dictGet child_family_id g.families with
    | none => .only child_dict
    | some child_family =>
      match get_spouse_id child_id child_family with
      | none => .only child_dict
      | some child_spouse_id =>
        match dictGet child_spouse_id g.individuals with
        | none => .only child_dict
        | some child_spouse =>
          .withSpouse child_dict
            (make_person child_spouse.first_name child_spouse.last_name
              child_spouse.birth child_spouse.death none)

/-- Error raised by `GedcomSource.get_family` (Python `ValueError`, named
`NotFoundError` in the specification). -/
inductive SourceError where
  | notFound (person_id : String)
deriving DecidableEq, Repr

/-- Embeds `GedcomSource.get_family`: assemble the display-ready family entry of
a person, raising only when the person itself is missing from the
individual map. -/
def get_family (g : Graph) (person_id : String) :
    Except SourceError FamilyEntry :=
  match dictGet person_id g.individuals with
  | none => .error (.notFound person_id)
  | some person =>
    let family : Option FamilyRec :=
      match person.fams with
      | [] => none
      | family_id :: _ => dictGet family_id g.families
    let spouse_id : Option String :=
      match family with
      | none => none
      | some fam => get_spouse_id person_id fam
    let spouse : Option Individual :=
      match spouse_id with
      | none => none
      | some sid => dictGet sid g.individuals
    let subject_father_id := (get_parents g (some person)).1
    let subject_mother_id := (get_parents g (some person)).2
    let subject_father := subject_father_id.bind (fun i => dictGet i g.individuals)
    let subject_mother := subject_mother_id.bind (fun i => dictGet i g.individuals)
    let spouse_father_id := (get_parents g spouse).1
    let spouse_mother_id := (get_parents g spouse).2
    let spouse_father := spouse_father_id.bind (fun i => dictGet i g.individuals)
    let spouse_mother := spouse_mother_id.bind (fun i => dictGet i g.individuals)
    let children_data : List ChildEntry :=
      match family with
      | none => []
      | some fam =>
        fam.children.filterMap (fun child_id =>
          (dictGet child_id g.individuals).map
            (fun child => make_child_entry g child_id child))
    .ok (make_family_entry person_id
      (make_person person.first_name person.last_name person.birth
        person.death none)
      (person_to_dict spouse)
      ⟨person_to_dict subject_father, person_to_dict subject_mother⟩
      ⟨person_to_dict spouse_father, person_to_dict spouse_mother⟩
      children_data)

/-- The first spousal family of a person, when it resolves to a known
family record: the common prelude of `get_family`, `_is_eligible` and
`_make_child_entry`. -/
def first_family (g : Graph) (person : Individual) : Option FamilyRec :=
  match person.fams with
  | [] => none
  | family_id :: _ => dictGet family_id g.families

/-- The spouse Individual of a person through its first spousal family,
when every link of the chain resolves. -/
def resolved_spouse (g : Graph) (person_id : String) (person : Individual) :
    Option Individual :=
  (first_family g person).bind (fun fam =>
    (get_spouse_id person_id fam).bind (fun sid => dictGet sid g.individuals))

/-- Resolution of a parent identifier to a known Individual record, as
`get_family` performs it (`self._individuals.get(...) if ... else None`). -/
def resolve_parent (g : Graph) (parent_id : Option String) : Option Individual :=
  parent_id.bind (fun i => dictGet i g.individuals)

/-- Follows the claim wording for eligibility rule 4 under the
graceful-degradation invariant: a parent counts only when its reference
resolves to a known Individual record. -/
def known_parent_exists (g : Graph) (person spouse : Individual) : Bool :=
  (resolve_parent g (get_parents g (some person)).1).isSome ||
  (resolve_parent g (get_parents g (some person)).2).isSome ||
  (resolve_parent g (get_parents g (some spouse)).1).isSome ||
  (resolve_parent g (get_parents g (some spouse)).2).isSome

/-- Follows the claim wording for the Eligibility Classifier: the four
rules of the claim, with rule 4 read under the graceful-degradation
invariant (`known_parent_exists`). -/
def claimed_eligible (g : Graph) (person_id : String) (person : Individual) :
    Bool :=
  match person.fams with
  | [] => false
  | family_id :: _ =>
    match dictGet family_id g.families with
    | none => false
    | some family =>
      if family.children = [] then false
      else
        match get_spouse_id person_id family with
        | none => false
        | some spouse_id =>
          match dictGet spouse_id g.individuals with
          | none => false
          | some spouse => known_parent_exists g person spouse

/-- Python regex word character (`\w`) over the ASCII alphabet of GEDCOM
date strings: letters, digits, underscore. -/
def isWordChar (c : Char) : Bool := c.isAlphanum || c = '_'

/-- Whether the character just before the scan position is a word
character (`none` models the start of the string). -/
def prevIsWord : Option Char → Bool
  | none => false
  | some c => isWordChar c

/-- Whether the next unscanned character is a word character (an empty
list models the end of the string). -/
def headIsWord : List Char → Bool
  | [] => false
  | c :: _ => isWordChar c

/-- Whether the pattern of `_extract_year`, Python regex `\b(\d{4})\b`,
matches at the start of `l`, with `prev` the character immediately before
the scan position: four digits, not preceded and not followed by a word
character. -/
def match4At (prev : Option Char) (l : List Char) : Bool :=
  match l with
  | c1 :: c2 :: c3 :: c4 :: rest =>
    c1.isDigit && c2.isDigit && c3.isDigit && c4.isDigit &&
      !prevIsWord prev && !headIsWord rest
  | _ => false

/-- Leftmost-match scan of `re.search`: try the pattern at each position
from the left, keeping track of the previous character for the word
boundary. -/
def searchFrom (prev : Option Char) : List Char → Option (List Char)
  | [] => none
  | c :: rest =>
    if match4At prev (c :: rest) then some ((c :: rest).take 4)
    else searchFrom (some c) rest

/-- Embeds `GedcomSource._extract_year` on an already-stringified date
value: `re.search(r'\b(\d{4})\b', date_str)`, returning the leftmost
match or `None`. -/
def extract_year (s : String) : Option String :=
  (searchFrom none s.data).map (fun l => l.asString)

/-- The character before position `i` (`prev` when `i = 0`). -/
def prevAt (prev : Option Char) (l : List Char) (i : Nat) : Option Char :=
  if i = 0 then prev else l.get? (i - 1)

/-- Index-based view of the scan: the pattern matches at position `i`. -/
def boundedRunAt (l : List Char) (i : Nat) : Bool :=
  match4At (prevAt none l i) (l.drop i)

/-- Index-based specification of the leftmost match. -/
def searchFromSpec (prev : Option Char) (l : List Char) : Option (List Char) :=
  ((List.range l.length).find? (fun i => match4At (prevAt prev l i) (l.drop i))).map
    (fun i => (l.drop i).take 4)

/-- Whether the list of characters is a digit at index `i`. -/
def digitAt (l : List Char) (i : Nat) : Bool :=
  match l.get? i with
  | some c => c.isDigit
  | none => false

/-- Follows the claim wording for year extraction: a run of exactly four
consecutive digits starts at index `i` (four digits neither preceded nor
followed by another digit), with no word-boundary requirement. -/
def exactFourDigitRunAt (l : List Char) (i : Nat) : Bool :=
  digitAt l i && digitAt l (i + 1) && digitAt l (i + 2) && digitAt l (i + 3) &&
    !digitAt l (i + 4) && (decide (i = 0) || !digitAt l (i - 1))

/-- JSON values, as produced by Python `json.load` and consumed by
`json.dump`; objects are insertion-ordered key/value lists. -/
inductive Json where
  | null
  | bool (b : Bool)
  | num (n : Int)
  | str (s : String)
  | arr (elems : List Json)
  | obj (fields : List (String × Json))

/-- Error escaping `cache.load_cache` (an `OSError` from `open`, which
the `except (json.JSONDecodeError, KeyError)` clause does not catch). -/
inductive CacheError where
  | osError
deriving DecidableEq, Repr

/-- State of the cache file as `load_cache` can encounter it: absent
(`cache_path.exists()` false), present but unreadable (`open` raises
`OSError`), present but not parseable as JSON (`json.load` raises
`JSONDecodeError`), or present with parseable content. -/
inductive CacheFile where
  | missing
  | unreadable
  | invalidJson
  | validJson (content : Json)

/-- Embeds `cache.load_cache`: `None` for a missing file; `json.load` of
the content with `JSONDecodeError` caught (`KeyError` is also caught but
`json.load` never raises it); an `OSError` from `open` propagates; the
parsed value is returned with no structural validation of its fields. -/
def load_cache : CacheFile → Except CacheError (Option Json)
  | .missing => .ok none
  | .unreadable => .error .osError
  | .invalidJson => .ok none
  | .validJson j => .ok (some j)

/-- Follows the specification wording for a structurally well-formed
cache record: a record with both a hash field and a list of entries. -/
def spec_cache_well_formed : Json → Bool
  | .obj fields =>
    (dictGet "gedcom_hash" fields).isSome &&
      (match dictGet "families" fields with
       | some (.arr _) => true
       | _ => false)
  | _ => false

/-- The record `save_cache` serialises: `{"gedcom_hash": ..., "families": ...}`. -/
def cache_record (gedcom_hash : String) (families : List Json) : Json :=
  .obj [("gedcom_hash", .str gedcom_hash), ("families", .arr families)]

/-- Content of the cache file path as observable by a reader at some
instant: no file, a file truncated by `open(path, "w")`, or a file
holding a complete JSON record. -/
inductive FileContent where
  | absent
  | truncated
  | complete (content : Json)

/-- One file-system mutation at the cache path: the truncation performed
by `open(path, "w")`, or the write performed by `json.dump`. -/
inductive WriteStep where
  | openTruncate
  | writeAll (content : Json)

/-- Embeds `cache.save_cache` as the sequence of mutations it performs at
the target path: it opens the target itself with mode `w` (truncating it
in place) and then dumps the record — no temporary file, no rename. -/
def save_cache (gedcom_hash : String) (families : List Json) : List WriteStep :=
  [.openTruncate, .writeAll (cache_record gedcom_hash families)]

/-- Effect of one mutation on the observable content of the path. -/
def apply_write_step : FileContent → WriteStep → FileContent
  | _, .openTruncate => .truncated
  | _, .writeAll j => .complete j

/-- Every content a reader of the path can observe while the mutations
run, starting from the prior content. -/
def observable_states (prior : FileContent) : List WriteStep → List FileContent
  | [] => [prior]
  | step :: rest => prior :: observable_states (apply_write_step prior step) rest

/-- Content of the path after all mutations ran. -/
def final_state (prior : FileContent) (steps : List WriteStep) : FileContent :=
  steps.foldl apply_write_step prior

/-- Follows the specification wording for an atomic save: a reader of the
path sees either the complete old content or the complete new content at
every observable point. -/
def atomic_visibility (prior : FileContent) (steps : List WriteStep) : Prop :=
  ∀ st ∈ observable_states prior steps, st = prior ∨ st = final_state prior steps

/-- Error raised by `schema.family_to_current` when the entry has no
`"id"` key (Python `KeyError`). -/
inductive SchemaError where
  | keyError
deriving DecidableEq, Repr

/-- Python dictionary update `d[k] = v`: replace the value of an existing
key in place, otherwise append the new binding. -/
def dictSet (d : List (String × Json)) (k : String) (v : Json) :
    List (String × Json) :=
  if d.any (fun kv => decide (kv.1 = k)) then
    d.map (fun kv => if kv.1 = k then (k, v) else kv)
  else d ++ [(k, v)]

/-- Embeds `schema.family_to_current`: copy every field except `"id"`,
then set `"last_family_id"` to the value of `family["id"]` (a `KeyError`
when that key is absent). -/
def family_to_current (family : List (String × Json)) :
    Except SchemaError (List (String × Json)) :=
  match dictGet "id" family with
  | none => .error .keyError
  | some v =>
    .ok (dictSet (family.filter (fun kv => decide (kv.1 ≠ "id"))) "last_family_id" v)

/-- Fixture graph with a dangling parent reference: the parental family
`FP` of `P` names the unknown individual `GHOST` as husband, and no other
parent reference exists anywhere. -/
def ghostParentGraph : Graph :=
  ⟨[("P", ⟨"Pat", "Doe", none, none, none, ["F1"], some "FP"⟩),
    ("W", ⟨"Win", "Doe", none, none, none, ["F1"], none⟩),
    ("C", ⟨"Kid", "Doe", none, none, none, [], none⟩)],
   [("F1", ⟨some "P", some "W", ["C"]⟩),
    ("FP", ⟨some "GHOST", none, []⟩)]⟩

/-- Fixture graph with a dangling child reference: family `F1` lists the
unknown child `GHOSTC` after the known child `C`; the grandfather `GF` is
a known record, and `C` has no spousal family. -/
def ghostChildGraph : Graph :=
  ⟨[("P", ⟨"Pat", "Doe", none, none, none, ["F1"], some "FP"⟩),
    ("W", ⟨"Win", "Doe", none, none, none, ["F1"], none⟩),
    ("C", ⟨"Kid", "Doe", none, none, none, [], none⟩),
    ("GF", ⟨"Gramp", "Doe", none, none, none, [], none⟩)],
   [("F1", ⟨some "P", some "W", ["C", "GHOSTC"]⟩),
    ("FP", ⟨some "GF", none, []⟩)]⟩

theorem select_family_id_cons_cons (a b : String) (t : List String)
    (last_id : Option String) (r : Nat) :
    select_family_id (a :: b :: t) last_id r =
      (let candidates := (a :: b :: t).filter (fun i => decide (some i ≠ last_id))
       let pool := if candidates.isEmpty then a :: b :: t else candidates
       match pool[r % pool.length]? with
       | some x => .ok x
       | none => .error .emptySet) := rfl

theorem getElem?_mod_of_ne_nil {l : List String} (h : l ≠ []) (r : Nat) :
    ∃ x, l[r % l.length]? = some x ∧ x ∈ l := by
  have hlen : 0 < l.length := List.length_pos.2 h
  have hm : r % l.length < l.length := Nat.mod_lt _ hlen
  exact ⟨l[r % l.length], List.getElem?_eq_getElem hm, List.getElem_mem hm⟩

theorem select_family_id_ok_mem (eligible_ids : List String)
    (last_id : Option String) (r : Nat) (h : eligible_ids ≠ []) :
    ∃ x, select_family_id eligible_ids last_id r = .ok x ∧ x ∈ eligible_ids := by
  match eligible_ids, h with
  | [x], _ => exact ⟨x, rfl, by simp⟩
  | a :: b :: t, _ =>
    rw [select_family_id_cons_cons]
    dsimp only
    by_cases he : ((a :: b :: t).filter (fun i => decide (some i ≠ last_id))).isEmpty
    · obtain ⟨x, hx, hmem⟩ :=
        getElem?_mod_of_ne_nil (l := a :: b :: t) (by simp) r
      exact ⟨x, by rw [if_pos he, hx], hmem⟩
    · have hne : (a :: b :: t).filter (fun i => decide (some i ≠ last_id)) ≠ [] := by
        intro hnil
        rw [hnil] at he
        simp at he
      obtain ⟨x, hx, hmem⟩ := getElem?_mod_of_ne_nil hne r
      exact ⟨x, by rw [if_neg he, hx], List.mem_of_mem_filter hmem⟩

/-- C8: `select_family_id` fails with the empty-set error exactly when the
identifier list is empty; any returned identifier is a member of the input
list; and a singleton list always yields its sole element, even when it
equals the previous selection. -/
theorem select_family_id_error_iff_empty (ids : List String)
    (last_id : Option String) (r : Nat) :
    (select_family_id ids last_id r = .error .emptySet ↔ ids = []) ∧
    (∀ x, select_family_id ids last_id r = .ok x → x ∈ ids) ∧
    (∀ a, ids = [a] → select_family_id ids last_id r = .ok a) := by
  refine ⟨⟨?_, ?_⟩, ?_, ?_⟩
  · intro herr
    by_contra hne
    obtain ⟨x, hx, _⟩ := select_family_id_ok_mem ids last_id r hne
    rw [hx] at herr
    exact Except.noConfusion herr
  · intro heq
    subst heq
    rfl
  · intro x hx
    rcases eq_or_ne ids [] with hnil | hne
    · subst hnil
      exact Except.noConfusion hx
    · obtain ⟨y, hy, hmem⟩ := select_family_id_ok_mem ids last_id r hne
      rw [hy] at hx
      cases hx
      exact hmem
  · intro a heq
    subst heq
    rfl

/-- Witness for C8 at a concrete singleton whose element equals the
previous selection. -/
theorem select_family_id_error_iff_empty_witness :
    select_family_id ["I001"] (some "I001") 0 = .ok "I001" :=
  (select_family_id_error_iff_empty ["I001"] (some "I001") 0).2.2 "I001" rfl

/-- C2: with at least two pairwise-distinct identifiers containing the
previous selection, every outcome of the randomness source yields a
member of the list different from the previous selection. -/
theorem select_family_id_avoids_last (ids : List String) (last : String)
    (r : Nat) (hnd : ids.Nodup) (hlen : 2 ≤ ids.length) (hmem : last ∈ ids) :
    ∃ x, select_family_id ids (some last) r = .ok x ∧ x ∈ ids ∧ x ≠ last := by
  match ids, hlen with
  | a :: b :: t, _ =>
    have hne : (a :: b :: t).filter (fun i => decide (some i ≠ some last)) ≠ [] := by
      intro hnil
      have hall := List.filter_eq_nil_iff.1 hnil
      have ha : a = last := by
        have := hall a (by simp)
        simpa using this
      have hb : b = last := by
        have := hall b (by simp)
        simpa using this
      have : a ≠ b := by
        have := hnd
        rw [List.nodup_cons] at this
        exact fun hab => this.1 (hab ▸ List.mem_cons_self b t)
      exact this (ha.trans hb.symm)
    have hee : ¬((a :: b :: t).filter (fun i => decide (some i ≠ some last))).isEmpty := by
      intro habs
      exact hne (List.isEmpty_iff.1 habs)
    obtain ⟨x, hx, hxmem⟩ := getElem?_mod_of_ne_nil hne r
    have hxprop := List.mem_filter.1 hxmem
    refine ⟨x, ?_, List.mem_of_mem_filter hxmem, by simpa using hxprop.2⟩
    rw [select_family_id_cons_cons]
    dsimp only
    rw [if_neg hee, hx]

/-- Witness for C2 with candidates `{A, B}` and previous selection `A`. -/
theorem select_family_id_avoids_last_witness :
    ∃ x, select_family_id ["A", "B"] (some "A") 0 = .ok x ∧
      x ∈ ["A", "B"] ∧ x ≠ "A" :=
  select_family_id_avoids_last ["A", "B"] "A" 0 (by decide) (by decide)
    (by decide)

/-- Counterexample to C3: an existing but unreadable cache file makes
`load_cache` raise instead of returning the no-cache value, and content
that parses as JSON but has neither a hash field nor an entry list is
returned as a cache record instead of the no-cache value. -/
theorem load_cache_claim_counterexample :
    load_cache .unreadable = .error .osError ∧
    load_cache (.validJson (.obj [])) = .ok (some (.obj [])) ∧
    spec_cache_well_formed (.obj []) = false :=
  ⟨rfl, rfl, rfl⟩

/-- C3 (amended): `load_cache` returns the no-cache value exactly for a
missing file and for content that fails to parse as JSON; any value that
parses is returned with no validation of its fields; an existing but
unreadable file raises an uncaught operating-system error. -/
theorem load_cache_characterisation (f : CacheFile) :
    (load_cache f = .ok none ↔ (f = .missing ∨ f = .invalidJson)) ∧
    (∀ j, f = .validJson j → load_cache f = .ok (some j)) ∧
    ((∃ e, load_cache f = .error e) ↔ f = .unreadable) := by
  cases f <;> simp [load_cache]
  exact ⟨.osError, trivial⟩

/-- Witness for C3 at a parsed-but-unvalidated cache value. -/
theorem load_cache_characterisation_witness :
    load_cache (.validJson Json.null) = .ok (some Json.null) :=
  (load_cache_characterisation (.validJson Json.null)).2.1 Json.null rfl

/-- Counterexample to C10: writing a fresh cache exposes a truncated
intermediate state at the target path that is neither the prior content
nor the complete new record, so the save is not atomic. -/
theorem save_cache_not_atomic :
    ¬ atomic_visibility .absent (save_cache "deadbeef" []) := by
  intro h
  have hmem : FileContent.truncated ∈
      observable_states .absent (save_cache "deadbeef" []) := by
    simp [save_cache, observable_states, apply_write_step]
  rcases h .truncated hmem with h1 | h1 <;>
    simp [final_state, save_cache, apply_write_step, cache_record] at h1

/-- C10 (amended): `save_cache` truncates the target path in place and
then writes the full record there — no temporary file and no rename — so
the sequence of observable contents is prior, truncated, complete record;
the final content is the complete record. -/
theorem save_cache_states (gedcom_hash : String) (families : List Json)
    (prior : FileContent) :
    observable_states prior (save_cache gedcom_hash families) =
      [prior, .truncated, .complete (cache_record gedcom_hash families)] ∧
    final_state prior (save_cache gedcom_hash families) =
      .complete (cache_record gedcom_hash families) :=
  ⟨rfl, rfl⟩

theorem dictGet_cons {α : Type} (k : String) (kv : String × α)
    (rest : List (String × α)) :
    dictGet k (kv :: rest) = if kv.1 = k then some kv.2 else dictGet k rest :=
  rfl

theorem dictGet_filter_of_ne {α : Type} (k k0 : String) (h : k ≠ k0)
    (l : List (String × α)) :
    dictGet k (l.filter (fun kv => decide (kv.1 ≠ k0))) = dictGet k l := by
  induction l with
  | nil => rfl
  | cons kv rest ih =>
    rw [List.filter_cons, dictGet_cons]
    by_cases hk : kv.1 = k0
    · have h1 : ¬kv.1 = k := fun e => h (e.symm.trans hk)
      rw [if_neg (by simp [hk]), ih, if_neg h1]
    · rw [if_pos (by simp [hk]), dictGet_cons]
      by_cases h2 : kv.1 = k
      · rw [if_pos h2, if_pos h2]
      · rw [if_neg h2, if_neg h2, ih]

theorem dictGet_filter_self {α : Type} (k0 : String) (l : List (String × α)) :
    dictGet k0 (l.filter (fun kv => decide (kv.1 ≠ k0))) = none := by
  induction l with
  | nil => rfl
  | cons kv rest ih =>
    rw [List.filter_cons]
    by_cases hk : kv.1 = k0
    · rw [if_neg (by simp [hk]), ih]
    · rw [if_pos (by simp [hk]), dictGet_cons, if_neg hk, ih]

theorem dictGet_map_set (d : List (String × Json)) (k : String) (v : Json)
    (h : d.any (fun kv => decide (kv.1 = k)) = true) :
    dictGet k (d.map (fun kv => if kv.1 = k then (k, v) else kv)) = some v := by
  induction d with
  | nil => simp at h
  | cons kv rest ih =>
    rw [List.map_cons]
    by_cases hk : kv.1 = k
    · rw [if_pos hk, dictGet_cons, if_pos rfl]
    · have h2 : rest.any (fun kv => decide (kv.1 = k)) = true := by
        simp only [List.any_cons, Bool.or_eq_true, decide_eq_true_eq] at h
        rcases h with h | h
        · exact absurd h hk
        · exact h
      rw [if_neg hk, dictGet_cons, if_neg hk, ih h2]

theorem dictGet_map_set_ne (d : List (String × Json)) (k k2 : String)
    (v : Json) (h : k2 ≠ k) :
    dictGet k2 (d.map (fun kv => if kv.1 = k then (k, v) else kv)) =
      dictGet k2 d := by
  induction d with
  | nil => rfl
  | cons kv rest ih =>
    rw [List.map_cons, dictGet_cons]
    by_cases hk : kv.1 = k
    · have h1 : ¬kv.1 = k2 := fun e => h (e.symm.trans hk)
      rw [if_pos hk, dictGet_cons, if_neg (Ne.symm h), ih, if_neg h1]
    · rw [if_neg hk, dictGet_cons]
      by_cases h2 : kv.1 = k2
      · rw [if_pos h2, if_pos h2]
      · rw [if_neg h2, if_neg h2, ih]

theorem dictGet_none_of_any_false (k : String) (d : List (String × Json))
    (h : d.any (fun kv => decide (kv.1 = k)) = false) :
    dictGet k d = none := by
  induction d with
  | nil => rfl
  | cons kv rest ih =>
    simp only [List.any_cons, Bool.or_eq_false_iff, decide_eq_false_iff_not] at h
    rw [dictGet_cons, if_neg h.1, ih h.2]

theorem dictGet_append_right (k : String) (l1 l2 : List (String × Json))
    (h : dictGet k l1 = none) :
    dictGet k (l1 ++ l2) = dictGet k l2 := by
  induction l1 with
  | nil => rfl
  | cons kv rest ih =>
    rw [dictGet_cons] at h
    by_cases hk : kv.1 = k
    · rw [if_pos hk] at h
      exact Option.noConfusion h
    · rw [if_neg hk] at h
      rw [List.cons_append, dictGet_cons, if_neg hk, ih h]

theorem dictGet_append_left (k : String) (l1 l2 : List (String × Json))
    (v : Json) (h : dictGet k l1 = some v) :
    dictGet k (l1 ++ l2) = some v := by
  induction l1 with
  | nil => exact Option.noConfusion h
  | cons kv rest ih =>
    rw [dictGet_cons] at h
    by_cases hk : kv.1 = k
    · rw [if_pos hk] at h
      rw [List.cons_append, dictGet_cons, if_pos hk, h]
    · rw [if_neg hk] at h
      rw [List.cons_append, dictGet_cons, if_neg hk, ih h]

theorem dictGet_dictSet_self (d : List (String × Json)) (k : String)
    (v : Json) :
    dictGet k (dictSet d k v) = some v := by
  unfold dictSet
  by_cases h : d.any (fun kv => decide (kv.1 = k)) = true
  · rw [if_pos h]
    exact dictGet_map_set d k v h
  · rw [if_neg h]
    have h0 : d.any (fun kv => decide (kv.1 = k)) = false :=
      Bool.eq_false_iff.2 h
    rw [dictGet_append_right k d _ (dictGet_none_of_any_false k d h0),
      dictGet_cons, if_pos rfl]

theorem dictGet_dictSet_ne (d : List (String × Json)) (k k2 : String)
    (v : Json) (h : k2 ≠ k) :
    dictGet k2 (dictSet d k v) = dictGet k2 d := by
  unfold dictSet
  by_cases ha : d.any (fun kv => decide (kv.1 = k)) = true
  · rw [if_pos ha]
    exact dictGet_map_set_ne d k k2 v h
  · rw [if_neg ha]
    cases hd : dictGet k2 d with
    | none =>
      rw [dictGet_append_right k2 d _ hd, dictGet_cons,
        if_neg (Ne.symm h)]
      rfl
    | some v2 =>
      exact dictGet_append_left k2 d _ v2 hd

/-- C9: on a family entry carrying an `"id"` field, `family_to_current`
produces a record whose `"last_family_id"` field holds that identifier
verbatim, whose other fields are unchanged, and which no longer carries
`"id"` — so reading the identifier back from the projected record
recovers the original identifier exactly. -/
theorem family_to_current_roundtrip (family : List (String × Json))
    (v : Json) (h : dictGet "id" family = some v) :
    ∃ result, family_to_current family = .ok result ∧
      dictGet "last_family_id" result = some v ∧
      dictGet "id" result = none ∧
      ∀ k, k ≠ "id" → k ≠ "last_family_id" →
        dictGet k result = dictGet k family := by
  refine ⟨dictSet (family.filter (fun kv => decide (kv.1 ≠ "id")))
    "last_family_id" v, ?_, ?_, ?_, ?_⟩
  · unfold family_to_current
    rw [h]
  · exact dictGet_dictSet_self _ "last_family_id" v
  · rw [dictGet_dictSet_ne _ _ _ _ (by decide)]
    exact dictGet_filter_self "id" family
  · intro k hk1 hk2
    rw [dictGet_dictSet_ne _ _ _ _ hk2]
    exact dictGet_filter_of_ne k "id" hk1 family

/-- Witness for C9 at a concrete two-field family entry. -/
theorem family_to_current_roundtrip_witness :
    ∃ result,
      family_to_current [("id", Json.str "@I001@"), ("subject", Json.null)] =
        .ok result ∧
      dictGet "last_family_id" result = some (Json.str "@I001@") ∧
      dictGet "id" result = none ∧
      ∀ k, k ≠ "id" → k ≠ "last_family_id" →
        dictGet k result =
          dictGet k [("id", Json.str "@I001@"), ("subject", Json.null)] :=
  family_to_current_roundtrip
    [("id", Json.str "@I001@"), ("subject", Json.null)] (Json.str "@I001@") rfl

theorem dictGet_none_iff_keys {α : Type} (k : String) (l : List (String × α)) :
    dictGet k l = none ↔ ∀ kv ∈ l, kv.1 ≠ k := by
  induction l with
  | nil => simp [dictGet]
  | cons kv rest ih =>
    rw [dictGet_cons]
    by_cases hk : kv.1 = k
    · simp [hk]
    · simp [hk, ih]

theorem get_family_ok_of_some (g : Graph) (pid : String) (person : Individual)
    (hp : dictGet pid g.individuals = some person) :
    ∃ fe, get_family g pid = .ok fe := by
  cases hr : get_family g pid with
  | ok fe => exact ⟨fe, rfl⟩
  | error e =>
    unfold get_family at hr
    rw [hp] at hr
    exact Except.noConfusion hr

theorem get_family_error_of_none (g : Graph) (pid : String)
    (hp : dictGet pid g.individuals = none) :
    get_family g pid = .error (.notFound pid) := by
  unfold get_family
  rw [hp]

/-- C6: `get_family` fails exactly when the requested identifier is
missing from the individual map, and every identifier produced by
`get_eligible_ids` on the same graph succeeds. -/
theorem get_family_fails_iff_unknown (g : Graph) (pid : String) :
    ((∃ e, get_family g pid = .error e) ↔ dictGet pid g.individuals = none) ∧
    (pid ∈ get_eligible_ids g → ∃ fe, get_family g pid = .ok fe) := by
  constructor
  · constructor
    · rintro ⟨e, he⟩
      cases hp : dictGet pid g.individuals with
      | none => rfl
      | some person =>
        obtain ⟨fe, hfe⟩ := get_family_ok_of_some g pid person hp
        rw [hfe] at he
        exact Except.noConfusion he
    · intro hp
      exact ⟨.notFound pid, get_family_error_of_none g pid hp⟩
  · intro hmem
    unfold get_eligible_ids at hmem
    obtain ⟨kv, hkv, hfst⟩ := List.mem_map.1 hmem
    obtain ⟨hin, _⟩ := List.mem_filter.1 hkv
    cases hp : dictGet pid g.individuals with
    | some person => exact get_family_ok_of_some g pid person hp
    | none =>
      exact absurd hfst ((dictGet_none_iff_keys pid g.individuals).1 hp kv hin)

/-- Witness for C6: a concrete eligible identifier on which `get_family`
succeeds. -/
theorem get_family_fails_iff_unknown_witness :
    "P" ∈ get_eligible_ids ghostChildGraph ∧
    ∃ fe, get_family ghostChildGraph "P" = .ok fe :=
  ⟨by decide,
   (get_family_fails_iff_unknown ghostChildGraph "P").2 (by decide)⟩

/-- Counterexample to C1: `P` in `ghostParentGraph` is classified eligible
although its only parent reference, the husband `GHOST` of family `FP`,
does not resolve to a known Individual record, so under the
graceful-degradation reading of rule 4 (`claimed_eligible`) `P` is not
eligible. -/
theorem is_eligible_counterexample :
    is_eligible ghostParentGraph "P"
      ⟨"Pat", "Doe", none, none, none, ["F1"], some "FP"⟩ = true ∧
    claimed_eligible ghostParentGraph "P"
      ⟨"Pat", "Doe", none, none, none, ["F1"], some "FP"⟩ = false ∧
    "P" ∈ get_eligible_ids ghostParentGraph ∧
    dictGet "GHOST" ghostParentGraph.individuals = none := by
  refine ⟨rfl, rfl, ?_, rfl⟩
  decide

/-- C1 (amended): an individual is classified eligible iff the first
spousal-family reference resolves to a known family with at least one
child reference, the other husband/wife reference of that family resolves
to a known Individual record, and at least one parent *reference* is
present on either side — where a parent reference counts as soon as the
parental family is known and lists a husband or wife identifier, even
when that identifier resolves to no known Individual record. -/
theorem is_eligible_iff_rules (g : Graph) (pid : String) :
    (∀ person : Individual,
      is_eligible g pid person = true ↔
        ∃ fid rest, person.fams = fid :: rest ∧
        ∃ family, dictGet fid g.families = some family ∧
          family.children ≠ [] ∧
          ∃ sid, get_spouse_id pid family = some sid ∧
          ∃ spouse, dictGet sid g.individuals = some spouse ∧
            ((get_parents g (some person)).1.isSome = true ∨
             (get_parents g (some person)).2.isSome = true ∨
             (get_parents g (some spouse)).1.isSome = true ∨
             (get_parents g (some spouse)).2.isSome = true)) ∧
    (pid ∈ get_eligible_ids g ↔
      ∃ person, (pid, person) ∈ g.individuals ∧
        is_eligible g pid person = true) := by
  constructor
  · intro person
    unfold is_eligible
    cases hf : person.fams with
    | nil => simp
    | cons fid rest =>
      cases hfam : dictGet fid g.families with
      | none => simp [hfam]
      | some family =>
        by_cases hch : family.children = []
        · simp [hfam, hch]
        · cases hsp : get_spouse_id pid family with
          | none => simp [hfam, hch, hsp]
          | some sid =>
            cases hspi : dictGet sid g.individuals with
            | none => simp [hfam, hch, hsp, hspi]
            | some spouse =>
              simp [hfam, hch, hsp, hspi, or_assoc]
  · unfold get_eligible_ids
    constructor
    · intro hmem
      obtain ⟨kv, hkv, hfst⟩ := List.mem_map.1 hmem
      obtain ⟨hin, helig⟩ := List.mem_filter.1 hkv
      refine ⟨kv.2, ?_, ?_⟩
      · rw [← hfst]
        exact hin
      · rw [← hfst]
        simpa using helig
    · rintro ⟨person, hin, helig⟩
      exact List.mem_map.2
        ⟨(pid, person), List.mem_filter.2 ⟨hin, by simpa using helig⟩, rfl⟩

/-- Witness for C1 at a concrete graph and individual. -/
theorem is_eligible_iff_rules_witness :
    ∃ fid rest,
      (⟨"Pat", "Doe", none, none, none, ["F1"], some "FP"⟩ :
        Individual).fams = fid :: rest ∧
      ∃ family, dictGet fid ghostChildGraph.families = some family ∧
        family.children ≠ [] ∧
        ∃ sid, get_spouse_id "P" family = some sid ∧
        ∃ spouse, dictGet sid ghostChildGraph.individuals = some spouse ∧
          ((get_parents ghostChildGraph
              (some ⟨"Pat", "Doe", none, none, none, ["F1"], some "FP"⟩)).1.isSome = true ∨
           (get_parents ghostChildGraph
              (some ⟨"Pat", "Doe", none, none, none, ["F1"], some "FP"⟩)).2.isSome = true ∨
           (get_parents ghostChildGraph (some spouse)).1.isSome = true ∨
           (get_parents ghostChildGraph (some spouse)).2.isSome = true) :=
  ((is_eligible_iff_rules ghostChildGraph "P").1
    ⟨"Pat", "Doe", none, none, none, ["F1"], some "FP"⟩).1 (by decide)

theorem get_family_eq_of_some (g : Graph) (pid : String) (person : Individual)
    (hp : dictGet pid g.individuals = some person) :
    get_family g pid = .ok (make_family_entry pid
      (make_person person.first_name person.last_name person.birth
        person.death none)
      (person_to_dict (resolved_spouse g pid person))
      ⟨person_to_dict (resolve_parent g (get_parents g (some person)).1),
       person_to_dict (resolve_parent g (get_parents g (some person)).2)⟩
      ⟨person_to_dict (resolve_parent g
          (get_parents g (resolved_spouse g pid person)).1),
       person_to_dict (resolve_parent g
          (get_parents g (resolved_spouse g pid person)).2)⟩
      (match first_family g person with
       | none => []
       | some fam =>
         fam.children.filterMap (fun child_id =>
           (dictGet child_id g.individuals).map
             (fun child => make_child_entry g child_id child)))) := by
  simp only [get_family, hp, resolved_spouse, resolve_parent, first_family]
  cases hf : person.fams with
  | nil => rfl
  | cons fid rest =>
    dsimp only
    cases hfam : dictGet fid g.families with
    | none => rfl
    | some fam =>
      dsimp only [Option.bind]
      cases hsp : get_spouse_id pid fam with
      | none => rfl
      | some sid => rfl

/-- Counterexample to C5: `P` is eligible in `ghostChildGraph`, its first
spousal family `F1` lists two children, but the assembled entry has only
one child-entry — the dangling child reference `GHOSTC` is silently
dropped rather than yielding an entry. -/
theorem get_family_children_counterexample :
    "P" ∈ get_eligible_ids ghostChildGraph ∧
    (dictGet "F1" ghostChildGraph.families).map
      (fun fam => fam.children.length) = some 2 ∧
    (get_family ghostChildGraph "P").toOption.map
      (fun fe => fe.children.length) = some 1 ∧
    dictGet "GHOSTC" ghostChildGraph.individuals = none := by
  exact ⟨by decide, rfl, rfl, rfl⟩

/-- C5 (amended): for every identifier present in the individual map the
assembler returns an entry whose identifier and subject snapshot come from
that individual, and whose children sequence has exactly one entry per
child reference of the first spousal family *that resolves to a known
Individual record*, in source order (the order-preserving `filterMap` of
the child list); with no resolvable first family the sequence is empty.
The parent records are present by construction with each inner
father/mother independently possibly absent. -/
theorem get_family_children_order (g : Graph) (pid : String)
    (person : Individual) (hp : dictGet pid g.individuals = some person) :
    ∃ fe, get_family g pid = .ok fe ∧
      fe.id = pid ∧
      fe.subject = make_person person.first_name person.last_name
        person.birth person.death none ∧
      (∀ fam, first_family g person = some fam →
        fe.children = fam.children.filterMap (fun child_id =>
          (dictGet child_id g.individuals).map
            (fun child => make_child_entry g child_id child))) ∧
      (first_family g person = none → fe.children = []) := by
  refine ⟨_, get_family_eq_of_some g pid person hp, rfl, rfl, ?_, ?_⟩
  · intro fam hfam
    rw [hfam]
    exact rfl
  · intro hnone
    rw [hnone]
    exact rfl

/-- Witness for C5 at a concrete graph. -/
theorem get_family_children_order_witness :
    ∃ fe, get_family ghostChildGraph "P" = .ok fe ∧ fe.id = "P" := by
  obtain ⟨fe, h1, h2, -, -, -⟩ :=
    get_family_children_order ghostChildGraph "P"
      ⟨"Pat", "Doe", none, none, none, ["F1"], some "FP"⟩ rfl
  exact ⟨fe, h1, h2⟩

/-- Whether a child-entry dictionary carries a `"second"` key at all. -/
def child_entry_has_second_key : ChildEntry → Bool
  | .only _ => false
  | .withSpouse _ _ => true

/-- Counterexample to C7: in the entry assembled for the eligible `P`,
the child `C` has no resolvable spouse and its child-entry carries no
`"second"` key at all — the missing paired spouse is represented by
omitting the key, not by an explicit null under it. -/
theorem child_entry_omits_key_counterexample :
    "P" ∈ get_eligible_ids ghostChildGraph ∧
    (get_family ghostChildGraph "P").toOption.map
      (fun fe => fe.children.map child_entry_has_second_key) =
        some [false] := by
  exact ⟨by decide, rfl⟩

/-- C7 (amended): a missing spouse and missing parents are represented by
explicit nulls under their always-present keys (`person_to_dict` of the
resolution outcome), and no placeholder person record is ever produced;
but a child-entry whose child has no resolvable spouse carries the child
alone — its `"second"` key is omitted rather than set to null. -/
theorem snapshot_absent_representation (g : Graph) (pid : String)
    (person : Individual) (hp : dictGet pid g.individuals = some person) :
    (∃ fe, get_family g pid = .ok fe ∧
      fe.spouse = person_to_dict (resolved_spouse g pid person) ∧
      fe.subject_parents =
        ⟨person_to_dict (resolve_parent g (get_parents g (some person)).1),
         person_to_dict (resolve_parent g (get_parents g (some person)).2)⟩ ∧
      fe.spouse_parents =
        ⟨person_to_dict (resolve_parent g
            (get_parents g (resolved_spouse g pid person)).1),
         person_to_dict (resolve_parent g
            (get_parents g (resolved_spouse g pid person)).2)⟩) ∧
    (∀ cid child,
      make_child_entry g cid child =
        match resolved_spouse g cid child with
        | some sp => ChildEntry.withSpouse
            (make_person child.first_name child.last_name child.birth
              child.death (some true))
            (make_person sp.first_name sp.last_name sp.birth sp.death none)
        | none => ChildEntry.only
            (make_person child.first_name child.last_name child.birth
              child.death (some true))) := by
  constructor
  · exact ⟨_, get_family_eq_of_some g pid person hp, rfl, rfl, rfl⟩
  · intro cid child
    simp only [make_child_entry, resolved_spouse, first_family]
    cases hcf : child.fams with
    | nil => rfl
    | cons fid rest =>
      dsimp only
      cases hfam : dictGet fid g.families with
      | none => rfl
      | some fam =>
        dsimp only [Option.bind]
        cases hsp : get_spouse_id cid fam with
        | none => rfl
        | some sid =>
          dsimp only [Option.bind]
          cases hind : dictGet sid g.individuals with
          | none => rfl
          | some sp => rfl

/-- Witness for C7 at a concrete graph. -/
theorem snapshot_absent_representation_witness :
    ∃ fe, get_family ghostChildGraph "P" = .ok fe ∧
      fe.spouse = person_to_dict (resolved_spouse ghostChildGraph "P"
        ⟨"Pat", "Doe", none, none, none, ["F1"], some "FP"⟩) := by
  obtain ⟨⟨fe, h1, h2, -⟩, -⟩ :=
    snapshot_absent_representation ghostChildGraph "P"
      ⟨"Pat", "Doe", none, none, none, ["F1"], some "FP"⟩ rfl
  exact ⟨fe, h1, h2⟩

theorem searchFrom_eq_spec (l : List Char) : ∀ prev,
    searchFrom prev l = searchFromSpec prev l := by
  induction l with
  | nil => intro prev; rfl
  | cons c rest ih =>
    intro prev
    rw [searchFrom]
    unfold searchFromSpec
    rw [List.length_cons, List.range_succ_eq_map]
    by_cases hm : match4At prev (c :: rest) = true
    · rw [if_pos hm, List.find?_cons_of_pos
        (p := fun i => match4At (prevAt prev (c :: rest) i)
          ((c :: rest).drop i)) _ (by exact hm)]
      rfl
    · rw [if_neg hm, List.find?_cons_of_neg
        (p := fun i => match4At (prevAt prev (c :: rest) i)
          ((c :: rest).drop i)) _ (by exact hm), List.find?_map,
        Option.map_map]
      have hfun : ((fun i => match4At (prevAt prev (c :: rest) i)
          ((c :: rest).drop i)) ∘ Nat.succ) =
          (fun i => match4At (prevAt (some c) rest i) (rest.drop i)) := by
        funext i
        cases i <;> rfl
      rw [hfun, ih (some c)]
      unfold searchFromSpec
      congr 1

/-- Leftmost word-bounded four-digit run of a string: the characters of
the first position at which the pattern of the regex matches. -/
def first_bounded_year (s : String) : Option String :=
  ((List.range s.data.length).find? (fun i => boundedRunAt s.data i)).map
    (fun i => ((s.data.drop i).take 4).asString)

theorem boundedRunAt_lt_length (l : List Char) (i : Nat)
    (h : boundedRunAt l i = true) : i < l.length := by
  by_contra hge
  push_neg at hge
  have hdrop : l.drop i = [] := List.drop_eq_nil_of_le hge
  unfold boundedRunAt at h
  rw [hdrop] at h
  have hfalse : match4At (prevAt none l i) ([] : List Char) = false := rfl
  rw [hfalse] at h
  exact Bool.noConfusion h

/-- Counterexample to C4: the text `c1850` contains a run of exactly four
consecutive digits (at index 1, preceded by a non-digit), yet
`_extract_year` returns the absent value, because the regex `\b` word
boundary also rejects a letter before the digits; on a qualifier with a
space, such as `abt. 1850`, extraction succeeds as claimed. -/
theorem extract_year_counterexample :
    extract_year "c1850" = none ∧
    exactFourDigitRunAt "c1850".data 1 = true ∧
    extract_year "abt. 1850" = some "1850" ∧
    extract_year "BET 1850 AND 1860" = some "1850" :=
  ⟨rfl, rfl, rfl, rfl⟩

/-- C4 (amended): `_extract_year` returns the first run of exactly four
consecutive digits that is delimited by word boundaries — not adjacent to
any letter, digit, or underscore — and returns the absent value iff no
such word-bounded run exists; it never fails on any input text. -/
theorem extract_year_is_first_bounded_run (s : String) :
    extract_year s = first_bounded_year s ∧
    ((extract_year s).isSome = true ↔ ∃ i, boundedRunAt s.data i = true) := by
  have h1 : searchFrom none s.data = searchFromSpec none s.data :=
    searchFrom_eq_spec s.data none
  have h2 : extract_year s = first_bounded_year s := by
    unfold extract_year first_bounded_year
    rw [h1]
    unfold searchFromSpec
    rw [Option.map_map]
    rfl
  refine ⟨h2, ?_⟩
  rw [h2]
  unfold first_bounded_year
  constructor
  · intro hs
    rw [Option.isSome_map'] at hs
    obtain ⟨i, _, hp⟩ := List.find?_isSome.1 hs
    exact ⟨i, hp⟩
  · rintro ⟨i, hp⟩
    rw [Option.isSome_map']
    exact List.find?_isSome.2
      ⟨i, List.mem_range.2 (boundedRunAt_lt_length s.data i hp), hp⟩

/-- Witness for C4 at a concrete qualified date text. -/
theorem extract_year_is_first_bounded_run_witness :
    extract_year "abt. 1850" = first_bounded_year "abt. 1850" :=
  (extract_year_is_first_bounded_run "abt. 1850").1
